import Mathlib

/-
Verification of the perrot charting library's layout and scaling engine.

This file gives a shallow embedding of the parts of the source relevant to
the verified properties:
  * Plot.finalize_axis and Plot.finalize_zoom (src/perrot/prebuilds/plot.py),
  * ChartBase.init_frames, ChartBase.draw and ChartBase.get_obj_below
    (src/perrot/chart/chart.py),
  * Venn.__init__ and Venn.draw (src/perrot/venn/venn.py),
  * Syncer.force (src/perrot/interact/syncer.py).

Python floats are embedded as rationals; Python None for an optional float
is embedded as Option.
-/

namespace Perrot

/-! ### Plot.finalize_axis (src/perrot/prebuilds/plot.py, lines 1453-1530)

The finalize_axis method is a pipeline of range adjustments.  Each block
of the Python method becomes one Lean definition below, and finalize_axis
is their composition in source order. -/

/-- Configuration of an axis as read by Plot.finalize_axis: the check_limits,
includes, symmetric and empty_range axis properties. -/
structure AxisCfg where
  checkLimits : Bool
  includes : List ℚ
  symmetric : Bool
  emptyRange : ℚ × ℚ
deriving DecidableEq

/-- Embeds the two None-substitution blocks at the top of finalize_axis:
if either given bound is None both are replaced by the series-derived
limits, and if either is still None both are replaced by empty_range. -/
def initRange (emptyRange : ℚ × ℚ) (rangeMin rangeMax s0 e0 : Option ℚ) : ℚ × ℚ :=
  let p : Option ℚ × Option ℚ :=
    if s0.isNone || e0.isNone then (rangeMin, rangeMax) else (s0, e0)
  match p with
  | (some s, some e) => (s, e)
  | _ => emptyRange

/-- Embeds the check-limits block of finalize_axis: when check_limits is
set and both series-derived limits exist, clamp when both sides overflow,
otherwise shift to bring the overflowing side back to the limit. -/
def checkLimitsStep (checkLimits : Bool) (rangeMin rangeMax : Option ℚ)
    (s e : ℚ) : ℚ × ℚ :=
  match checkLimits, rangeMin, rangeMax with
  | true, some rmin, some rmax =>
    if s < rmin ∧ e > rmax then
      (rmin, rmax)
    else if s < rmin then
      (s + (rmin - s), e + (rmin - s))
    else if e > rmax then
      (s - (e - rmax), e - (e - rmax))
    else
      (s, e)
  | _, _, _ => (s, e)

/-- Minimum of a nonempty list given as head and tail, as Python min(...). -/
def listMin (h : ℚ) (t : List ℚ) : ℚ := t.foldl min h

/-- Maximum of a nonempty list given as head and tail, as Python max(...). -/
def listMax (h : ℚ) (t : List ℚ) : ℚ := t.foldl max h

/-- Embeds the includes block of finalize_axis: when the includes list is
nonempty, lower start to min(includes) if start is above it and raise end
to max(includes) if end is below it. -/
def includesStep (includes : List ℚ) (s e : ℚ) : ℚ × ℚ :=
  match includes with
  | [] => (s, e)
  | h :: t =>
    let inclMin := listMin h t
    let inclMax := listMax h t
    (if s > inclMin then inclMin else s, if e < inclMax then inclMax else e)

/-- Embeds the first degenerate-range guard: if start == end == 0 the end
becomes 1. -/
def zeroGuard (s e : ℚ) : ℚ × ℚ :=
  if s = e ∧ s = 0 then (s, 1) else (s, e)

/-- Embeds the symmetry block: a symmetric axis gets the range
(-max(|start|,|end|), max(|start|,|end|)). -/
def symStep (symmetric : Bool) (s e : ℚ) : ℚ × ℚ :=
  if symmetric then
    let m := max |s| |e|
    (-m, m)
  else
    (s, e)

/-- Embeds the final degenerate-range guard: if start == end, start is
decreased by 0.1*start and end is increased by 0.1*end. -/
def stretchGuard (s e : ℚ) : ℚ × ℚ :=
  if s = e then (s - 0.1 * s, e + 0.1 * e) else (s, e)

/-- The state of finalize_axis just before the symmetry block: the given
range after None substitution, the check-limits block, the includes block
and the first degenerate-range guard. -/
def preSym (ax : AxisCfg) (rangeMin rangeMax s0 e0 : Option ℚ) : ℚ × ℚ :=
  let p := initRange ax.emptyRange rangeMin rangeMax s0 e0
  let p := checkLimitsStep ax.checkLimits rangeMin rangeMax p.1 p.2
  let p := includesStep ax.includes p.1 p.2
  zeroGuard p.1 p.2

/-- Plot.finalize_axis: the full pipeline.  The arguments rangeMin and
rangeMax are the series-derived limits the method obtains from
_get_series_limits; s0 and e0 are the requested bounds.  The result is the
range stored into the axis scale. -/
def finalize_axis (ax : AxisCfg) (rangeMin rangeMax s0 e0 : Option ℚ) : ℚ × ℚ :=
  let p := preSym ax rangeMin rangeMax s0 e0
  let p := symStep ax.symmetric p.1 p.2
  stretchGuard p.1 p.2

/-- A plain axis configuration: no limit checking, no includes, not
symmetric. -/
def axPlain : AxisCfg := ⟨false, [], false, (0, 1)⟩

/-- A symmetric axis configuration with no includes and no limit checking. -/
def axSym : AxisCfg := ⟨false, [], true, (0, 1)⟩

/-- An axis configuration with includes = (100,) only. -/
def axIncl : AxisCfg := ⟨false, [100], false, (0, 1)⟩

/-- A symmetric axis configuration that also has includes = (100,). -/
def axSymIncl : AxisCfg := ⟨false, [100], true, (0, 1)⟩

/-! ### Plot.finalize_zoom (src/perrot/prebuilds/plot.py, lines 1400-1451)

The propagation pass walks the dependent (child) axes of every given axis
and finalizes each one that passes the guards.  The embedding records the
tags of the axes on which finalize_axis is invoked. -/

/-- An axis as seen by the propagation pass: its unique tag and the level,
static and autoscale properties. -/
structure AxisM where
  tag : String
  level : ℤ
  static : Bool
  autoscale : Bool
deriving DecidableEq

/-- A data series: its visibility and the tags of the axes its mapping
references. -/
structure SeriesM where
  visible : Bool
  related : List String
deriving DecidableEq

/-- A plot: registered axes and series. -/
structure PlotM where
  axes : List AxisM
  series : List SeriesM

/-- True when some visible series references both given axis tags. -/
def sharesVisibleSeries (p : PlotM) (t1 t2 : String) : Bool :=
  p.series.any (fun s => s.visible && s.related.contains t1 && s.related.contains t2)

/-- Embeds Plot._get_child_axes: related axes with a level above the given
axis's level, connected through a shared visible series.  The Python set
is modelled as the filtered axis list, which holds each axis once because
a chart registers each axis once. -/
def child_axes (p : PlotM) (a : AxisM) : List AxisM :=
  p.axes.filter (fun x => decide (a.level < x.level) && sharesVisibleSeries p a.tag x.tag)

/-- Embeds Plot._get_parent_axes: related axes with a level below the
given axis's level, connected through a shared visible series. -/
def parent_axes (p : PlotM) (a : AxisM) : List AxisM :=
  p.axes.filter (fun x => decide (x.level < a.level) && sharesVisibleSeries p a.tag x.tag)

/-- An entry of the Python changed set in finalize_zoom.  The set holds
tag strings (inserted up front for the given axes, Sum.inl) and axis
objects (inserted by changed.add(child), Sum.inr, identified here by the
axis tag); the membership test of the string child.tag only ever matches
a string entry. -/
abbrev ChangedEntry := Sum String String

/-- Membership of a tag string in the changed set: the Python test
child.tag in changed, which compares the string against every entry and
can only match string entries. -/
def changedHasTag (changed : List ChangedEntry) (t : String) : Bool :=
  changed.any (fun entry => decide (entry = Sum.inl t))

/-- Embeds Plot.finalize_zoom, recording the tag of every dependent axis
on which finalize_axis is invoked.  The changed set starts with the given
axes' tags; each processed child is remembered as an object entry
(Sum.inr child.tag), exactly as changed.add(child) stores the axis object
rather than its tag, and the skip test asks whether the string child.tag
is in the set. -/
def finalize_zoom_calls (p : PlotM) (axes0 : List AxisM) : List String :=
  let axes := axes0.dedup
  let start : List ChangedEntry × List String :=
    (axes.map (fun a => Sum.inl a.tag), [])
  (axes.foldl (fun (acc : List ChangedEntry × List String) axis =>
    (child_axes p axis).foldl (fun (acc : List ChangedEntry × List String) child =>
      if changedHasTag acc.1 child.tag then acc
      else if child.static || !child.autoscale then acc
      else
        let changed := acc.1.concat (Sum.inr child.tag)
        if (parent_axes p child).isEmpty then (changed, acc.2)
        else (changed, acc.2.concat child.tag)) acc) start).2

/-- A level-0 axis tagged A1. -/
def axA1 : AxisM := ⟨"A1", 0, false, false⟩

/-- A level-0 axis tagged A2. -/
def axA2 : AxisM := ⟨"A2", 0, false, false⟩

/-- A level-1 axis tagged C that autoscales and is not static. -/
def axC : AxisM := ⟨"C", 1, false, true⟩

/-- A plot in which one visible series connects axes A1, A2 and C. -/
def plotShared : PlotM := ⟨[axA1, axA2, axC], [⟨true, ["A1", "A2", "C"]⟩]⟩

/-! ### Venn.__init__ value assignments (src/perrot/venn/venn.py, lines 125-139) -/

/-- The value fields of the seven region patches and three circle patches
of a Venn diagram. -/
structure VennValues where
  a : ℚ
  b : ℚ
  ab : ℚ
  c : ℚ
  ac : ℚ
  bc : ℚ
  abc : ℚ
  A : ℚ
  B : ℚ
  C : ℚ
deriving DecidableEq

/-- Embeds the value assignments in Venn.__init__: each region patch gets
the corresponding constructor argument and each circle patch gets the sum
of its member regions. -/
def venn_init (a b ab c ac bc abc : ℚ) : VennValues :=
  { a := a, b := b, ab := ab, c := c, ac := ac, bc := bc, abc := abc
    A := a + ab + ac + abc
    B := b + ab + bc + abc
    C := c + ac + bc + abc }

/-- The sum of the seven region patches' value fields. -/
def regionSum (v : VennValues) : ℚ := v.a + v.b + v.ab + v.c + v.ac + v.bc + v.abc

/-! ### Syncer.force (src/perrot/interact/syncer.py, lines 219-247) -/

/-- A registered axis link, reduced to what the force walk observes: the
identity of the master control and whether zooming the slave raises an
exception. -/
structure SyncLink where
  master : ℕ
  raises : Bool
deriving DecidableEq

/-- Embeds the loop of Syncer.force: walk the registered links, and for
each link whose master is the forcing control, zoom the slave; a raising
zoom call aborts the walk (none means an exception escapes). -/
def force_walk (master : ℕ) : List SyncLink → Option Unit
  | [] => some ()
  | l :: rest =>
    if l.master = master then
      if l.raises then none else force_walk master rest
    else force_walk master rest

/-- Embeds Syncer.force as a map from the incoming _in_sync flag to the
pair (result, final _in_sync flag); a none result means an exception
escaped from the method.  The method returns immediately when the flag is
already set; otherwise it sets the flag, walks the links and clears the
flag only after the walk completes — the method has no try/finally, so an
exception propagates with the flag still set. -/
def force (links : List SyncLink) (inSync : Bool) (master : ℕ) : Option Unit × Bool :=
  if inSync then (some (), inSync)
  else
    match force_walk master links with
    | some () => (some (), false)
    | none => (none, true)

/-! ### ChartBase.init_frames (src/perrot/chart/chart.py, lines 472-610)

The layout negotiation: decorations are sorted by z_index, partitioned
into the four edge buckets, their effective extents and margins are
collected, the data frame is computed from the sums, and the decorations
are stacked outward from the data frame edge. -/

/-- A device-space rectangle, as the pero Frame: origin and size, with
derived corner coordinates. -/
structure FrameQ where
  x : ℚ
  y : ℚ
  w : ℚ
  h : ℚ
deriving DecidableEq

/-- Left edge coordinate of a frame. -/
def FrameQ.x1 (f : FrameQ) : ℚ := f.x

/-- Right edge coordinate of a frame. -/
def FrameQ.x2 (f : FrameQ) : ℚ := f.x + f.w

/-- Top edge coordinate of a frame. -/
def FrameQ.y1 (f : FrameQ) : ℚ := f.y

/-- Bottom edge coordinate of a frame. -/
def FrameQ.y2 (f : FrameQ) : ℚ := f.y + f.h

/-- The pero Frame.reversed test: negative width or height. -/
def FrameQ.reversedB (f : FrameQ) : Bool := decide (f.w < 0) || decide (f.h < 0)

/-- A margin quad in the Python order (top, right, bottom, left). -/
structure MarginQ where
  top : ℚ
  right : ℚ
  bottom : ℚ
  left : ℚ
deriving DecidableEq

/-- The zero margin quad used for invisible or zero-extent decorations. -/
def zeroMargin : MarginQ := ⟨0, 0, 0, 0⟩

/-- The four perimeter positions a decoration can declare. -/
inductive EdgePos
  | left
  | right
  | top
  | bottom
deriving DecidableEq

/-- A registered chart object as init_frames reads it: whether it is an
InGraphics (inside the data frame) or an OutGraphics (perimeter
decoration), and its position, visibility, measured extent, margin quad
and z_index. -/
structure ObjCfg where
  isIn : Bool
  position : EdgePos
  visible : Bool
  extent : ℚ
  margin : MarginQ
  zIndex : ℤ
deriving DecidableEq

/-- The chart properties init_frames reads (width and height already
resolved against the canvas viewport), the optional fixed frame
coordinates, and the registered objects. -/
structure ChartCfg where
  x : ℚ
  y : ℚ
  width : ℚ
  height : ℚ
  padding : MarginQ
  frameX1 : Option ℚ
  frameX2 : Option ℚ
  frameY1 : Option ℚ
  frameY2 : Option ℚ
  objects : List ObjCfg

/-- The effective extent: obj.get_extent(canvas) if visible else 0. -/
def effExtent (o : ObjCfg) : ℚ := if o.visible then o.extent else 0

/-- The effective margin: obj.margin if (visible and extent) else zero. -/
def effMargin (o : ObjCfg) : MarginQ :=
  if o.visible = true ∧ effExtent o ≠ 0 then o.margin else zeroMargin

/-- The margin component of a decoration facing the data frame on the
given edge (for the left bucket this is the right margin, and so on). -/
def inwardMargin (p : EdgePos) (m : MarginQ) : ℚ :=
  match p with
  | .left => m.right
  | .right => m.left
  | .top => m.bottom
  | .bottom => m.top

/-- The margin component of a decoration facing away from the data frame
on the given edge. -/
def outwardMargin (p : EdgePos) (m : MarginQ) : ℚ :=
  match p with
  | .left => m.left
  | .right => m.right
  | .top => m.top
  | .bottom => m.bottom

/-- Stable insertion into a list sorted ascending by z_index: the new
element goes after every element with a strictly smaller z_index and
before equal ones that were later in the original order. -/
def insertByZ (x : ℕ × ObjCfg) : List (ℕ × ObjCfg) → List (ℕ × ObjCfg)
  | [] => [x]
  | y :: ys => if y.2.zIndex < x.2.zIndex then y :: insertByZ x ys else x :: y :: ys

/-- Stable ascending sort by z_index.  Python's list.sort is stable, and
every stable sort on the same key computes the same list, so the stable
insertion sort embeds objects.sort(key=lambda o: o.z_index). -/
def sortByZ : List (ℕ × ObjCfg) → List (ℕ × ObjCfg)
  | [] => []
  | x :: xs => insertByZ x (sortByZ xs)

/-- The registered objects paired with their registration index and
sorted by z_index, as at the top of init_frames. -/
def sortedObjs (cfg : ChartCfg) : List (ℕ × ObjCfg) := sortByZ cfg.objects.enum

/-- The bucket of out-objects on one edge, in sorted order, with their
registration indices. -/
def edgeBucketI (cfg : ChartCfg) (p : EdgePos) : List (ℕ × ObjCfg) :=
  (sortedObjs cfg).filter (fun o => !o.2.isIn && decide (o.2.position = p))

/-- The bucket of out-objects on one edge, in sorted order. -/
def edgeBucket (cfg : ChartCfg) (p : EdgePos) : List ObjCfg :=
  (edgeBucketI cfg p).map Prod.snd

/-- Embeds the bucket margin lists (left_margins and friends): starting
from [0], each decoration first raises the current last entry to the
maximum with its inward margin and then appends its outward margin. -/
def buildMargins : ℚ → List (ℚ × ℚ) → List ℚ
  | last, [] => [last]
  | last, (inw, outw) :: rest => max inw last :: buildMargins outw rest

/-- The (inward, outward) effective margin pairs of one bucket. -/
def marginPairs (cfg : ChartCfg) (p : EdgePos) : List (ℚ × ℚ) :=
  (edgeBucket cfg p).map (fun o => (inwardMargin p (effMargin o), outwardMargin p (effMargin o)))

/-- The full margin list of one bucket. -/
def edgeMargins (cfg : ChartCfg) (p : EdgePos) : List ℚ :=
  buildMargins 0 (marginPairs cfg p)

/-- Sum of the effective extents of one bucket. -/
def extSum (cfg : ChartCfg) (p : EdgePos) : ℚ :=
  ((edgeBucket cfg p).map effExtent).sum

/-- Sum of the bucket margins except the last (the Python margins[:-1]). -/
def marSum (cfg : ChartCfg) (p : EdgePos) : ℚ :=
  (edgeMargins cfg p).dropLast.sum

/-- Embeds the data frame computation: each edge is padding plus the
bucket's extents and inter-item margins away from the chart edge, unless
a fixed frame coordinate overrides it. -/
def dataFrame (cfg : ChartCfg) : FrameQ :=
  let fx1 := cfg.frameX1.getD (cfg.x + cfg.padding.left + extSum cfg .left + marSum cfg .left)
  let fx2 := cfg.frameX2.getD (cfg.x - cfg.padding.right + cfg.width - extSum cfg .right - marSum cfg .right)
  let fy1 := cfg.frameY1.getD (cfg.y + cfg.padding.top + extSum cfg .top + marSum cfg .top)
  let fy2 := cfg.frameY2.getD (cfg.y - cfg.padding.bottom + cfg.height - extSum cfg .bottom - marSum cfg .bottom)
  ⟨fx1, fy1, fx2 - fx1, fy2 - fy1⟩

/-- The chart frame Frame(x, y, width, height). -/
def chartFrame (cfg : ChartCfg) : FrameQ := ⟨cfg.x, cfg.y, cfg.width, cfg.height⟩

/-- The (visible, effective extent) pairs of one bucket, the data the
placement loop reads. -/
def visExts (cfg : ChartCfg) (p : EdgePos) : List (Bool × ℚ) :=
  (edgeBucket cfg p).map (fun o => (o.visible, effExtent o))

/-- Embeds the placement loops that walk away from the data frame in the
decreasing direction (left and top edges): each object's frame starts at
shift - extent, and shift advances past the extent and the next margin
only when the object is visible. -/
def stackDec (mk : ℚ → ℚ → FrameQ) : ℚ → List (Bool × ℚ) → List ℚ → List FrameQ
  | _, [], _ => []
  | shift, (vis, e) :: rest, ms =>
    mk (shift - e) e :: stackDec mk (if vis then shift - e - ms.headD 0 else shift) rest ms.tail

/-- Embeds the placement loops that walk away from the data frame in the
increasing direction (right and bottom edges). -/
def stackInc (mk : ℚ → ℚ → FrameQ) : ℚ → List (Bool × ℚ) → List ℚ → List FrameQ
  | _, [], _ => []
  | shift, (vis, e) :: rest, ms =>
    mk shift e :: stackInc mk (if vis then shift + e + ms.headD 0 else shift) rest ms.tail

/-- The frames assigned to one bucket's decorations, in bucket order. -/
def edgeFrames (cfg : ChartCfg) (p : EdgePos) : List FrameQ :=
  let df := dataFrame cfg
  let ms := edgeMargins cfg p
  match p with
  | .left =>
    stackDec (fun pos e => ⟨pos, df.y1, e, df.h⟩) (df.x1 - ms.headD 0) (visExts cfg .left) ms.tail
  | .right =>
    stackInc (fun pos e => ⟨pos, df.y1, e, df.h⟩) (df.x2 + ms.headD 0) (visExts cfg .right) ms.tail
  | .top =>
    stackDec (fun pos e => ⟨df.x1, pos, df.w, e⟩) (df.y1 - ms.headD 0) (visExts cfg .top) ms.tail
  | .bottom =>
    stackInc (fun pos e => ⟨df.x1, pos, df.w, e⟩) (df.y2 + ms.headD 0) (visExts cfg .bottom) ms.tail

/-- The frame assigned to the decoration at the given index of a bucket. -/
def frameAt (cfg : ChartCfg) (p : EdgePos) (i : ℕ) : FrameQ :=
  ((edgeFrames cfg p)[i]?).getD ⟨0, 0, 0, 0⟩

/-- The empty gap init_frames leaves between bucket entries i and i+1:
the distance between the inner decoration's outer edge and the outer
decoration's inner edge, oriented per bucket. -/
def edgeGap (cfg : ChartCfg) (p : EdgePos) (i : ℕ) : ℚ :=
  match p with
  | .left => (frameAt cfg p i).x - ((frameAt cfg p (i+1)).x + (frameAt cfg p (i+1)).w)
  | .right => (frameAt cfg p (i+1)).x - ((frameAt cfg p i).x + (frameAt cfg p i).w)
  | .top => (frameAt cfg p i).y - ((frameAt cfg p (i+1)).y + (frameAt cfg p (i+1)).h)
  | .bottom => (frameAt cfg p (i+1)).y - ((frameAt cfg p i).y + (frameAt cfg p i).h)

/-- The frames of the in-objects: every InGraphics gets the data frame. -/
def inAssoc (cfg : ChartCfg) : List (ℕ × FrameQ) :=
  ((sortedObjs cfg).filter (fun o => o.2.isIn)).map (fun o => (o.1, dataFrame cfg))

/-- The frames of one bucket keyed by registration index. -/
def edgeAssoc (cfg : ChartCfg) (p : EdgePos) : List (ℕ × FrameQ) :=
  ((edgeBucketI cfg p).map Prod.fst).zip (edgeFrames cfg p)

/-- All object frames keyed by registration index. -/
def frameAssoc (cfg : ChartCfg) : List (ℕ × FrameQ) :=
  edgeAssoc cfg .left ++ edgeAssoc cfg .right ++ edgeAssoc cfg .top ++
    edgeAssoc cfg .bottom ++ inAssoc cfg

/-- The frame state a chart carries: the chart frame, the data frame and
the per-object frames in registration order. -/
structure ChartState where
  chart : FrameQ
  data : FrameQ
  objFrames : List FrameQ
deriving DecidableEq

/-- Embeds ChartBase.init_frames as a state transformer: the method first
cleans every object frame and then recomputes the chart frame, data frame
and every object frame from the chart properties alone, so the incoming
state is fully overwritten (objects missing from the buckets keep the
cleaned zero frame, matching the cleaning loop). -/
def init_frames (cfg : ChartCfg) (_state : ChartState) : ChartState :=
  { chart := chartFrame cfg
    data := dataFrame cfg
    objFrames := (List.range cfg.objects.length).map
      (fun i => ((frameAssoc cfg).lookup i).getD ⟨0, 0, 0, 0⟩) }

/-! ### ChartBase.draw (src/perrot/chart/chart.py, lines 326-367) and
Venn.draw (src/perrot/venn/venn.py, lines 173-208)

Both draw methods are embedded as the sequence of canvas paint phases
they perform; both are total functions, so no exception is raised. -/

/-- One canvas paint phase of ChartBase.draw. -/
inductive DrawEvent
  | bgr
  | frameFill
  | inObj (i : ℕ)
  | frameOutline
  | outObj (i : ℕ)
deriving DecidableEq

/-- The visible in-objects drawn inside the clipped data frame, in
z-order. -/
def inObjDraws (cfg : ChartCfg) : List DrawEvent :=
  ((sortedObjs cfg).filter (fun o => o.2.isIn && o.2.visible)).map (fun o => DrawEvent.inObj o.1)

/-- The visible out-objects drawn after the frame outline, in z-order. -/
def outObjDraws (cfg : ChartCfg) : List DrawEvent :=
  ((sortedObjs cfg).filter (fun o => !o.2.isIn && o.2.visible)).map (fun o => DrawEvent.outObj o.1)

/-- Embeds ChartBase.draw: nothing when the chart is invisible; otherwise
the background is painted and, unless the computed data frame is
reversed, the frame fill, the visible in-objects, the frame outline and
the visible out-objects follow. -/
def chart_draw (cfg : ChartCfg) (visible : Bool) : List DrawEvent :=
  if !visible then []
  else
    DrawEvent.bgr ::
      (if (dataFrame cfg).reversedB then []
       else DrawEvent.frameFill :: (inObjDraws cfg ++ [DrawEvent.frameOutline] ++ outObjDraws cfg))

/-- One canvas paint phase of Venn.draw. -/
inductive VennEvent
  | bgr
  | circles
  | regions
  | labels
deriving DecidableEq

/-- The inner frame Venn.draw computes from its width, height and
padding quad. -/
def venn_frame (width height : ℚ) (padding : MarginQ) : FrameQ :=
  ⟨padding.left, padding.top, width - (padding.right + padding.left),
    height - (padding.top + padding.bottom)⟩

/-- Embeds Venn.draw: the background is painted and, unless the inner
frame is reversed, the circles, regions and labels follow. -/
def venn_draw (width height : ℚ) (padding : MarginQ) : List VennEvent :=
  VennEvent.bgr ::
    (if (venn_frame width height padding).reversedB then []
     else [VennEvent.circles, VennEvent.regions, VennEvent.labels])

/-! ### ChartBase.get_obj_below (src/perrot/chart/chart.py, lines 186-219) -/

/-- A registered object as the hit test sees it: its logical frame and
z_index. -/
structure HitObj where
  frame : FrameQ
  zIndex : ℤ
deriving DecidableEq

/-- The result of get_obj_below: the DATA_FRAME constant, a registered
object, or None. -/
inductive HitResult
  | dataFrame
  | obj (o : HitObj)
  | nothing
deriving DecidableEq

/-- Stable insertion into a list sorted descending by z_index. -/
def insertByDesc (x : HitObj) : List HitObj → List HitObj
  | [] => [x]
  | y :: ys => if x.zIndex < y.zIndex then y :: insertByDesc x ys else x :: y :: ys

/-- Stable descending sort by z_index, embedding
objects.sort(key=lambda d: d.z_index, reverse=True): Python's sort is
stable, and every stable sort on the same key computes the same list. -/
def sortDesc : List HitObj → List HitObj
  | [] => []
  | x :: xs => insertByDesc x (sortDesc xs)

/-- Embeds ChartBase.get_obj_below, abstracted over the containment
predicate of the external pero Frame.contains.  The data frame is checked
first; otherwise the containing objects are sorted descending by z_index
and the first is returned, or None when no frame contains the point. -/
def get_obj_below (cnt : FrameQ → ℚ → ℚ → Bool) (dataF : FrameQ)
    (objs : List HitObj) (x y : ℚ) : HitResult :=
  if cnt dataF x y then .dataFrame
  else
    match sortDesc (objs.filter (fun o => cnt o.frame x y)) with
    | [] => .nothing
    | o :: _ => .obj o

/-- Rectangle containment with inclusive bounds, the behavior of the
external pero Frame.contains; used to instantiate the containment
predicate in witnesses. -/
def frame_contains (f : FrameQ) (px py : ℚ) : Bool :=
  decide (f.x1 ≤ px) && decide (px ≤ f.x2) && decide (f.y1 ≤ py) && decide (py ≤ f.y2)

/-- An inner left decoration with margins (top=0, right=5, bottom=0,
left=8), matching the spec's facing margin 8. -/
def decInner : ObjCfg := ⟨false, EdgePos.left, true, 20, ⟨0, 5, 0, 8⟩, 1⟩

/-- An outer left decoration with margins (top=0, right=3, bottom=0,
left=10), matching the spec's facing margin 3. -/
def decOuter : ObjCfg := ⟨false, EdgePos.left, true, 30, ⟨0, 3, 0, 10⟩, 2⟩

/-- A chart with the two left decorations whose facing margins are 8
and 3. -/
def cfgGap : ChartCfg :=
  ⟨0, 0, 400, 300, ⟨10, 10, 10, 10⟩, none, none, none, none, [decInner, decOuter]⟩

/-- A chart whose padding exceeds its size, so the data frame is
reversed. -/
def cfgRev : ChartCfg := ⟨0, 0, 10, 10, ⟨100, 100, 100, 100⟩, none, none, none, none, []⟩

/-- A decoration whose frame is the rectangle from (5, 5) to (15, 15). -/
def hitDec : HitObj := ⟨⟨5, 5, 10, 10⟩, 3⟩

/-- The zero guard never produces the pair (0, 0). -/
theorem zeroGuard_ne_zero (s e : ℚ) : zeroGuard s e ≠ (0, 0) := by
  unfold zeroGuard
  split_ifs with h
  · intro hc
    exact one_ne_zero (congrArg Prod.snd hc)
  · intro hc
    exact h ⟨(congrArg Prod.fst hc).trans (congrArg Prod.snd hc).symm,
      congrArg Prod.fst hc⟩

end Perrot

namespace Perrot

/-- C2: with check_limits set and both series-derived limits present, the
check-limits block of Plot.finalize_axis clamps the range to exactly
(range_min, range_max) when both sides overflow, shifts both bounds up by
range_min - start when only the start overflows, shifts both bounds down
by end - range_max when only the end overflows, and leaves the bounds
unchanged otherwise. -/
theorem check_limits_clamp_or_shift (rmin rmax s e : ℚ) :
    (s < rmin → e > rmax →
      checkLimitsStep true (some rmin) (some rmax) s e = (rmin, rmax)) ∧
    (s < rmin → ¬ e > rmax →
      checkLimitsStep true (some rmin) (some rmax) s e
        = (s + (rmin - s), e + (rmin - s))) ∧
    (¬ s < rmin → e > rmax →
      checkLimitsStep true (some rmin) (some rmax) s e
        = (s - (e - rmax), e - (e - rmax))) ∧
    (¬ s < rmin → ¬ e > rmax →
      checkLimitsStep true (some rmin) (some rmax) s e = (s, e)) := by
  refine ⟨fun h1 h2 => ?_, fun h1 h2 => ?_, fun h1 h2 => ?_, fun h1 h2 => ?_⟩ <;>
    simp only [checkLimitsStep]
  · rw [if_pos ⟨h1, h2⟩]
  · rw [if_neg (fun hc => h2 hc.2), if_pos h1]
  · rw [if_neg (fun hc => h1 hc.1), if_neg h1, if_pos h2]
  · rw [if_neg (fun hc => h1 hc.1), if_neg h1, if_neg h2]

/-- Witness for C2: concrete instances of the four check-limits cases with
limits (0, 10). -/
theorem check_limits_clamp_or_shift_witness :
    checkLimitsStep true (some 0) (some 10) (-2) 12 = (0, 10) ∧
    checkLimitsStep true (some 0) (some 10) (-2) 5 = ((-2) + (0 - (-2)), 5 + (0 - (-2))) ∧
    checkLimitsStep true (some 0) (some 10) 3 12 = (3 - (12 - 10), 12 - (12 - 10)) ∧
    checkLimitsStep true (some 0) (some 10) 3 5 = (3, 5) :=
  ⟨(check_limits_clamp_or_shift 0 10 (-2) 12).1 (by norm_num) (by norm_num),
   (check_limits_clamp_or_shift 0 10 (-2) 5).2.1 (by norm_num) (by norm_num),
   (check_limits_clamp_or_shift 0 10 3 12).2.2.1 (by norm_num) (by norm_num),
   (check_limits_clamp_or_shift 0 10 3 5).2.2.2 (by norm_num) (by norm_num)⟩

/-- C5: Plot.finalize_axis widens the range to cover the includes list
(start becomes the minimum of start and min(includes), end the maximum of
end and max(includes)) before the symmetry block, and a symmetric axis
ends with the range (-m, m) where m is max(|start|,|end|) of the
pre-symmetry values; in particular a symmetric axis with derived range
(-2, 5) ends at (-5, 5), includes=(100,) with derived range (0, 50) gives
(0, 100), and with both settings the includes widening happens first,
giving (-100, 100). -/
theorem includes_then_symmetric :
    (∀ (h : ℚ) (t : List ℚ) (s e : ℚ),
      includesStep (h :: t) s e = (min s (listMin h t), max e (listMax h t))) ∧
    (∀ (ax : AxisCfg) (rangeMin rangeMax s0 e0 : Option ℚ), ax.symmetric = true →
      0 < max |(preSym ax rangeMin rangeMax s0 e0).1| |(preSym ax rangeMin rangeMax s0 e0).2| ∧
      finalize_axis ax rangeMin rangeMax s0 e0
        = (-(max |(preSym ax rangeMin rangeMax s0 e0).1| |(preSym ax rangeMin rangeMax s0 e0).2|),
            max |(preSym ax rangeMin rangeMax s0 e0).1| |(preSym ax rangeMin rangeMax s0 e0).2|)) ∧
    finalize_axis axSym none none (some (-2)) (some 5) = (-5, 5) ∧
    finalize_axis axIncl none none (some 0) (some 50) = (0, 100) ∧
    finalize_axis axSymIncl none none (some 0) (some 50) = (-100, 100) := by
  refine ⟨fun h t s e => ?_, fun ax rangeMin rangeMax s0 e0 hsym => ?_, by decide, by decide, by decide⟩
  · simp only [includesStep]
    have h1 : (if s > listMin h t then listMin h t else s) = min s (listMin h t) := by
      rcases le_or_lt s (listMin h t) with hle | hlt
      · rw [if_neg (not_lt.mpr hle), min_eq_left hle]
      · rw [if_pos hlt, min_eq_right (le_of_lt hlt)]
    have h2 : (if e < listMax h t then listMax h t else e) = max e (listMax h t) := by
      rcases le_or_lt (listMax h t) e with hle | hlt
      · rw [if_neg (not_lt.mpr hle), max_eq_left hle]
      · rw [if_pos hlt, max_eq_right (le_of_lt hlt)]
    rw [h1, h2]
  · set p := preSym ax rangeMin rangeMax s0 e0 with hp
    have hne : p ≠ (0, 0) := by
      rw [hp]
      unfold preSym
      exact zeroGuard_ne_zero _ _
    have hm : 0 < max |p.1| |p.2| := by
      rcases eq_or_ne p.1 0 with h1 | h1
      · have h2 : p.2 ≠ 0 := by
          intro h2
          exact hne (Prod.ext h1 h2)
        exact lt_max_of_lt_right (abs_pos.mpr h2)
      · exact lt_max_of_lt_left (abs_pos.mpr h1)
    refine ⟨hm, ?_⟩
    have hfin : finalize_axis ax rangeMin rangeMax s0 e0
        = stretchGuard (-(max |p.1| |p.2|)) (max |p.1| |p.2|) := by
      unfold finalize_axis
      rw [← hp]
      simp only [symStep, hsym, if_pos]
    rw [hfin]
    unfold stretchGuard
    rw [if_neg]
    intro hc
    have : max |p.1| |p.2| = 0 := by linarith
    exact absurd this (ne_of_gt hm)

/-- Witness for C5: the symmetric-axis clause applied to the axis with
symmetric=True on the derived range (-2, 5). -/
theorem includes_then_symmetric_witness :
    0 < max |(preSym axSym none none (some (-2)) (some 5)).1| |(preSym axSym none none (some (-2)) (some 5)).2| ∧
    finalize_axis axSym none none (some (-2)) (some 5)
      = (-(max |(preSym axSym none none (some (-2)) (some 5)).1| |(preSym axSym none none (some (-2)) (some 5)).2|),
          max |(preSym axSym none none (some (-2)) (some 5)).1| |(preSym axSym none none (some (-2)) (some 5)).2|) :=
  includes_then_symmetric.2.1 axSym none none (some (-2)) (some 5) rfl

/-- On the plain axis configuration with both requested bounds equal to v,
finalize_axis reduces definitionally to the two degenerate-range guards. -/
theorem finalize_axis_plain_guards (v : ℚ) :
    finalize_axis axPlain none none (some v) (some v)
      = stretchGuard (zeroGuard v v).1 (zeroGuard v v).2 := rfl

/-- On the plain axis configuration, a nonzero degenerate requested range
(v, v) is stretched to (v - 0.1*v, v + 0.1*v). -/
theorem finalize_axis_plain_deg (v : ℚ) (hv : v ≠ 0) :
    finalize_axis axPlain none none (some v) (some v)
      = (v - 0.1 * v, v + 0.1 * v) := by
  rw [finalize_axis_plain_guards]
  have hz : zeroGuard v v = (v, v) := by
    unfold zeroGuard
    rw [if_neg (fun hc => hv hc.2)]
  rw [hz]
  unfold stretchGuard
  rw [if_pos rfl]

/-- Counterexample for C6: the final degenerate-range guard applied to the
nonzero degenerate range start = end = -5 yields (-4.5, -5.5), which is a
reversed range, so the guard does not produce start < end for every
nonzero value. -/
theorem stretch_negative_counterexample :
    finalize_axis axPlain none none (some (-5)) (some (-5)) = (-9/2, -11/2) ∧
    ¬ ((finalize_axis axPlain none none (some (-5)) (some (-5))).1
        < (finalize_axis axPlain none none (some (-5)) (some (-5))).2) := by
  have h2 : finalize_axis axPlain none none (some (-5)) (some (-5)) = (-9/2, -11/2) := by
    rw [finalize_axis_plain_deg (-5) (by norm_num)]
    norm_num
  refine ⟨h2, ?_⟩
  rw [h2]
  norm_num

/-- C6 (amended): Plot.finalize_axis guards degenerate ranges in two
steps: if start == end == 0 it forces end = 1; and if after the symmetry
step start == end with a nonzero value v, it moves start to v - 0.1*v and
end to v + 0.1*v, which removes the degenerate equality for every nonzero
v and gives a proper range (start < end) when v is positive, but a
reversed range (start > end) when v is negative. -/
theorem degenerate_range_guards :
    zeroGuard 0 0 = (0, 1) ∧
    finalize_axis axPlain none none (some 0) (some 0) = (0, 1) ∧
    (∀ s : ℚ, s ≠ 0 → stretchGuard s s = (s - 0.1 * s, s + 0.1 * s)) ∧
    (∀ v : ℚ, v ≠ 0 →
      finalize_axis axPlain none none (some v) (some v) = (v - 0.1 * v, v + 0.1 * v) ∧
      (0 < v → v - 0.1 * v < v + 0.1 * v) ∧
      (v < 0 → v + 0.1 * v < v - 0.1 * v) ∧
      v - 0.1 * v ≠ v + 0.1 * v) := by
  refine ⟨by decide, by decide, fun s _ => ?_, fun v hv => ?_⟩
  · unfold stretchGuard
    rw [if_pos rfl]
  · refine ⟨finalize_axis_plain_deg v hv, fun h => by linarith,
      fun h => by linarith, fun hc => ?_⟩
    apply hv
    linarith

/-- Witness for C6: the amended guard behavior at the concrete nonzero
degenerate range start = end = 3. -/
theorem degenerate_range_guards_witness :
    finalize_axis axPlain none none (some 3) (some 3) = (3 - 0.1 * 3, 3 + 0.1 * 3) ∧
    ((0:ℚ) < 3 → (3:ℚ) - 0.1 * 3 < 3 + 0.1 * 3) ∧
    ((3:ℚ) < 0 → (3:ℚ) + 0.1 * 3 < 3 - 0.1 * 3) ∧
    (3:ℚ) - 0.1 * 3 ≠ 3 + 0.1 * 3 :=
  degenerate_range_guards.2.2.2 3 (by norm_num)

/-- C1: the claim that Plot.finalize_zoom finalizes each dependent child
axis at most once per propagation pass fails on the code: the pass stores
the axis object (changed.add(child)) while the skip test looks for the
tag string (child.tag in changed), so the guard never matches a
remembered child.  On a plot where one visible series connects the
level-0 axes A1 and A2 with the autoscaled non-static level-1 axis C,
finalize_zoom(A1, A2) invokes finalize_axis on C twice — once per given
parent axis. -/
theorem finalize_zoom_repeats_child :
    finalize_zoom_calls plotShared [axA1, axA2] = ["C", "C"] ∧
    (finalize_zoom_calls plotShared [axA1, axA2]).count "C" = 2 := by
  constructor <;> rfl

/-- C7: for every Venn diagram the region patch values sum to the sum of
the seven constructor arguments and each circle patch value is the sum of
its member regions; at the spec's example inputs the region sum is 61 and
circle A's value is 43. -/
theorem venn_value_conservation :
    (∀ a b ab c ac bc abc : ℚ,
      regionSum (venn_init a b ab c ac bc abc) = a + b + ab + c + ac + bc + abc ∧
      (venn_init a b ab c ac bc abc).A = a + ab + ac + abc ∧
      (venn_init a b ab c ac bc abc).B = b + ab + bc + abc ∧
      (venn_init a b ab c ac bc abc).C = c + ac + bc + abc) ∧
    regionSum (venn_init 10 8 22 6 9 4 2) = 61 ∧
    (venn_init 10 8 22 6 9 4 2).A = 43 := by
  refine ⟨fun a b ab c ac bc abc => ⟨rfl, rfl, rfl, rfl⟩, ?_, ?_⟩
  · norm_num [regionSum, venn_init]
  · norm_num [venn_init]

/-- Counterexample for C9: a force call on a registered link whose slave
zoom raises ends with an exception escaping while the _in_sync flag is
still set, so the flag is not cleared on every exit path. -/
theorem force_exception_counterexample :
    (force [⟨0, true⟩] false 0).1 = none ∧
    (force [⟨0, true⟩] false 0).2 = true :=
  ⟨rfl, rfl⟩

/-- C9 (amended): Syncer.force sets the _in_sync flag before walking the
registered links and clears it when the walk completes normally, and a
call made while the flag is set returns immediately without syncing, so
mutual A-B links cannot recurse infinitely; but when an exception is
raised while syncing a linked axis the flag remains set, since the method
has no scoped (try/finally) release. -/
theorem force_flag_behavior :
    (∀ (links : List SyncLink) (m : ℕ), force_walk m links = some () →
      force links false m = (some (), false)) ∧
    (∀ (links : List SyncLink) (m : ℕ), force links true m = (some (), true)) ∧
    (∀ (links : List SyncLink) (m : ℕ), force_walk m links = none →
      force links false m = (none, true)) := by
  refine ⟨fun links m h => ?_, fun links m => rfl, fun links m h => ?_⟩
  · simp [force, h]
  · simp [force, h]

/-- Indexing a list with a default commutes with taking the tail. -/
theorem getD_tail_succ (ms : List ℚ) (i : ℕ) : ms.getD (i+1) 0 = ms.tail.getD i 0 := by
  cases ms <;> rfl

/-- Indexing a list at 0 with a default is headD. -/
theorem getD_headD (ms : List ℚ) : ms.getD 0 0 = ms.headD 0 := by
  cases ms <;> rfl

/-- In a decreasing placement, the gap between the frames at consecutive
indices i and i+1 — measured from the outer decoration's inner edge to
the inner decoration's outer edge — is the margin list entry at i,
provided the inner decoration is visible. -/
theorem stackDec_gap (mk : ℚ → ℚ → FrameQ) (i : ℕ) :
    ∀ (l : List (Bool × ℚ)) (ms : List ℚ) (shift e0 e1 : ℚ) (v1 : Bool),
      l[i]? = some (true, e0) → l[i+1]? = some (v1, e1) →
      ∃ q0 q1 : ℚ,
        (stackDec mk shift l ms)[i]? = some (mk q0 e0) ∧
        (stackDec mk shift l ms)[i+1]? = some (mk q1 e1) ∧
        q0 - (q1 + e1) = ms.getD i 0 := by
  induction i with
  | zero =>
    intro l ms shift e0 e1 v1 h0 h1
    cases l with
    | nil => simp at h0
    | cons hd tl =>
      obtain ⟨v0, ee0⟩ := hd
      rw [List.getElem?_cons_zero, Option.some.injEq, Prod.mk.injEq] at h0
      obtain ⟨rfl, rfl⟩ := h0
      cases tl with
      | nil => simp at h1
      | cons hd2 tl2 =>
        obtain ⟨vv1, ee1⟩ := hd2
        rw [List.getElem?_cons_succ, List.getElem?_cons_zero, Option.some.injEq,
          Prod.mk.injEq] at h1
        obtain ⟨rfl, rfl⟩ := h1
        have hu1 : stackDec mk shift ((true, ee0) :: (vv1, ee1) :: tl2) ms
            = mk (shift - ee0) ee0
              :: stackDec mk (shift - ee0 - ms.headD 0) ((vv1, ee1) :: tl2) ms.tail := rfl
        have hu2 : stackDec mk (shift - ee0 - ms.headD 0) ((vv1, ee1) :: tl2) ms.tail
            = mk (shift - ee0 - ms.headD 0 - ee1) ee1
              :: stackDec mk (if vv1 then shift - ee0 - ms.headD 0 - ee1 - ms.tail.headD 0
                  else shift - ee0 - ms.headD 0) tl2 ms.tail.tail := rfl
        refine ⟨shift - ee0, shift - ee0 - ms.headD 0 - ee1, ?_, ?_, ?_⟩
        · rw [hu1, List.getElem?_cons_zero]
        · rw [hu1, List.getElem?_cons_succ, hu2, List.getElem?_cons_zero]
        · rw [getD_headD]
          ring
  | succ i ih =>
    intro l ms shift e0 e1 v1 h0 h1
    cases l with
    | nil => simp at h0
    | cons hd tl =>
      obtain ⟨v, e⟩ := hd
      rw [List.getElem?_cons_succ] at h0 h1
      obtain ⟨q0, q1, hq0, hq1, hgap⟩ :=
        ih tl ms.tail (if v then shift - e - ms.headD 0 else shift) e0 e1 v1 h0 h1
      refine ⟨q0, q1, ?_, ?_, ?_⟩
      · rw [show stackDec mk shift ((v, e) :: tl) ms
            = mk (shift - e) e
              :: stackDec mk (if v then shift - e - ms.headD 0 else shift) tl ms.tail from rfl,
          List.getElem?_cons_succ]
        exact hq0
      · rw [show stackDec mk shift ((v, e) :: tl) ms
            = mk (shift - e) e
              :: stackDec mk (if v then shift - e - ms.headD 0 else shift) tl ms.tail from rfl,
          List.getElem?_cons_succ]
        exact hq1
      · rw [getD_tail_succ]
        exact hgap

/-- In an increasing placement, the gap between the frames at consecutive
indices i and i+1 is the margin list entry at i, provided the inner
decoration is visible. -/
theorem stackInc_gap (mk : ℚ → ℚ → FrameQ) (i : ℕ) :
    ∀ (l : List (Bool × ℚ)) (ms : List ℚ) (shift e0 e1 : ℚ) (v1 : Bool),
      l[i]? = some (true, e0) → l[i+1]? = some (v1, e1) →
      ∃ q0 q1 : ℚ,
        (stackInc mk shift l ms)[i]? = some (mk q0 e0) ∧
        (stackInc mk shift l ms)[i+1]? = some (mk q1 e1) ∧
        q1 - (q0 + e0) = ms.getD i 0 := by
  induction i with
  | zero =>
    intro l ms shift e0 e1 v1 h0 h1
    cases l with
    | nil => simp at h0
    | cons hd tl =>
      obtain ⟨v0, ee0⟩ := hd
      rw [List.getElem?_cons_zero, Option.some.injEq, Prod.mk.injEq] at h0
      obtain ⟨rfl, rfl⟩ := h0
      cases tl with
      | nil => simp at h1
      | cons hd2 tl2 =>
        obtain ⟨vv1, ee1⟩ := hd2
        rw [List.getElem?_cons_succ, List.getElem?_cons_zero, Option.some.injEq,
          Prod.mk.injEq] at h1
        obtain ⟨rfl, rfl⟩ := h1
        have hu1 : stackInc mk shift ((true, ee0) :: (vv1, ee1) :: tl2) ms
            = mk shift ee0
              :: stackInc mk (shift + ee0 + ms.headD 0) ((vv1, ee1) :: tl2) ms.tail := rfl
        have hu2 : stackInc mk (shift + ee0 + ms.headD 0) ((vv1, ee1) :: tl2) ms.tail
            = mk (shift + ee0 + ms.headD 0) ee1
              :: stackInc mk (if vv1 then shift + ee0 + ms.headD 0 + ee1 + ms.tail.headD 0
                  else shift + ee0 + ms.headD 0) tl2 ms.tail.tail := rfl
        refine ⟨shift, shift + ee0 + ms.headD 0, ?_, ?_, ?_⟩
        · rw [hu1, List.getElem?_cons_zero]
        · rw [hu1, List.getElem?_cons_succ, hu2, List.getElem?_cons_zero]
        · rw [getD_headD]
          ring
  | succ i ih =>
    intro l ms shift e0 e1 v1 h0 h1
    cases l with
    | nil => simp at h0
    | cons hd tl =>
      obtain ⟨v, e⟩ := hd
      rw [List.getElem?_cons_succ] at h0 h1
      obtain ⟨q0, q1, hq0, hq1, hgap⟩ :=
        ih tl ms.tail (if v then shift + e + ms.headD 0 else shift) e0 e1 v1 h0 h1
      refine ⟨q0, q1, ?_, ?_, ?_⟩
      · rw [show stackInc mk shift ((v, e) :: tl) ms
            = mk shift e
              :: stackInc mk (if v then shift + e + ms.headD 0 else shift) tl ms.tail from rfl,
          List.getElem?_cons_succ]
        exact hq0
      · rw [show stackInc mk shift ((v, e) :: tl) ms
            = mk shift e
              :: stackInc mk (if v then shift + e + ms.headD 0 else shift) tl ms.tail from rfl,
          List.getElem?_cons_succ]
        exact hq1
      · rw [getD_tail_succ]
        exact hgap

/-- A built margin list always has a head. -/
theorem buildMargins_cons (last : ℚ) (l : List (ℚ × ℚ)) :
    ∃ x xt, buildMargins last l = x :: xt := by
  cases l with
  | nil => exact ⟨last, [], rfl⟩
  | cons hd tl =>
    obtain ⟨a, b⟩ := hd
    exact ⟨max a last, buildMargins b tl, rfl⟩

/-- The entry at index i of the tail of a built margin list, for
consecutive source pairs at i and i+1, is the maximum of the outer pair's
inward margin and the inner pair's outward margin. -/
theorem buildMargins_tail_getD (i : ℕ) :
    ∀ (l : List (ℚ × ℚ)) (last a0 b0 a1 b1 : ℚ),
      l[i]? = some (a0, b0) → l[i+1]? = some (a1, b1) →
      (buildMargins last l).tail.getD i 0 = max a1 b0 := by
  induction i with
  | zero =>
    intro l last a0 b0 a1 b1 h0 h1
    cases l with
    | nil => simp at h0
    | cons hd tl =>
      obtain ⟨x0, y0⟩ := hd
      rw [List.getElem?_cons_zero, Option.some.injEq, Prod.mk.injEq] at h0
      obtain ⟨rfl, rfl⟩ := h0
      cases tl with
      | nil => simp at h1
      | cons hd2 tl2 =>
        obtain ⟨x1, y1⟩ := hd2
        rw [List.getElem?_cons_succ, List.getElem?_cons_zero, Option.some.injEq,
          Prod.mk.injEq] at h1
        obtain ⟨rfl, rfl⟩ := h1
        rfl
  | succ i ih =>
    intro l last a0 b0 a1 b1 h0 h1
    cases l with
    | nil => simp at h0
    | cons hd tl =>
      obtain ⟨x0, y0⟩ := hd
      rw [List.getElem?_cons_succ] at h0 h1
      have hstep : (buildMargins last ((x0, y0) :: tl)).tail = buildMargins y0 tl := rfl
      rw [hstep]
      obtain ⟨w, wt, hw⟩ := buildMargins_cons y0 tl
      have hres := ih tl y0 a0 b0 a1 b1 h0 h1
      rw [hw] at hres ⊢
      rw [List.getD_cons_succ]
      simpa using hres

/-- A visible decoration with nonzero effective extent keeps its declared
margin as its effective margin. -/
theorem effMargin_eq (o : ObjCfg) (hv : o.visible = true) (he : effExtent o ≠ 0) :
    effMargin o = o.margin := by
  unfold effMargin
  rw [if_pos ⟨hv, he⟩]

/-- C3: for any two adjacent visible decorations with nonzero extents
stacked on the same chart edge, the gap init_frames leaves between them
is the maximum of the inner-facing margin of the outer decoration and the
outer-facing margin of the inner decoration, not their sum. -/
theorem adjacent_margin_gap_is_max (cfg : ChartCfg) (p : EdgePos) (i : ℕ) (d0 d1 : ObjCfg)
    (h0 : (edgeBucket cfg p)[i]? = some d0)
    (h1 : (edgeBucket cfg p)[i+1]? = some d1)
    (hv0 : d0.visible = true) (hv1 : d1.visible = true)
    (he0 : effExtent d0 ≠ 0) (he1 : effExtent d1 ≠ 0) :
    edgeGap cfg p i = max (inwardMargin p d1.margin) (outwardMargin p d0.margin) := by
  have hp0 : (visExts cfg p)[i]? = some (true, effExtent d0) := by
    rw [visExts, List.getElem?_map, h0, Option.map_some', hv0]
  have hp1 : (visExts cfg p)[i+1]? = some (d1.visible, effExtent d1) := by
    rw [visExts, List.getElem?_map, h1, Option.map_some']
  have hm0 : (marginPairs cfg p)[i]?
      = some (inwardMargin p d0.margin, outwardMargin p d0.margin) := by
    rw [marginPairs, List.getElem?_map, h0, Option.map_some', effMargin_eq d0 hv0 he0]
  have hm1 : (marginPairs cfg p)[i+1]?
      = some (inwardMargin p d1.margin, outwardMargin p d1.margin) := by
    rw [marginPairs, List.getElem?_map, h1, Option.map_some', effMargin_eq d1 hv1 he1]
  have hms : (edgeMargins cfg p).tail.getD i 0
      = max (inwardMargin p d1.margin) (outwardMargin p d0.margin) :=
    buildMargins_tail_getD i (marginPairs cfg p) 0 _ _ _ _ hm0 hm1
  cases p with
  | left =>
    obtain ⟨q0, q1, hq0, hq1, hgap⟩ :=
      stackDec_gap (fun pos e => ⟨pos, (dataFrame cfg).y1, e, (dataFrame cfg).h⟩) i
        (visExts cfg .left) (edgeMargins cfg .left).tail
        ((dataFrame cfg).x1 - (edgeMargins cfg .left).headD 0)
        (effExtent d0) (effExtent d1) d1.visible hp0 hp1
    have hfa0 : frameAt cfg .left i
        = ⟨q0, (dataFrame cfg).y1, effExtent d0, (dataFrame cfg).h⟩ := by
      rw [frameAt, show edgeFrames cfg .left
        = stackDec (fun pos e => ⟨pos, (dataFrame cfg).y1, e, (dataFrame cfg).h⟩)
            ((dataFrame cfg).x1 - (edgeMargins cfg .left).headD 0)
            (visExts cfg .left) (edgeMargins cfg .left).tail from rfl, hq0]
      rfl
    have hfa1 : frameAt cfg .left (i+1)
        = ⟨q1, (dataFrame cfg).y1, effExtent d1, (dataFrame cfg).h⟩ := by
      rw [frameAt, show edgeFrames cfg .left
        = stackDec (fun pos e => ⟨pos, (dataFrame cfg).y1, e, (dataFrame cfg).h⟩)
            ((dataFrame cfg).x1 - (edgeMargins cfg .left).headD 0)
            (visExts cfg .left) (edgeMargins cfg .left).tail from rfl, hq1]
      rfl
    show (frameAt cfg .left i).x
        - ((frameAt cfg .left (i+1)).x + (frameAt cfg .left (i+1)).w) = _
    rw [hfa0, hfa1, ← hms]
    exact hgap
  | right =>
    obtain ⟨q0, q1, hq0, hq1, hgap⟩ :=
      stackInc_gap (fun pos e => ⟨pos, (dataFrame cfg).y1, e, (dataFrame cfg).h⟩) i
        (visExts cfg .right) (edgeMargins cfg .right).tail
        ((dataFrame cfg).x2 + (edgeMargins cfg .right).headD 0)
        (effExtent d0) (effExtent d1) d1.visible hp0 hp1
    have hfa0 : frameAt cfg .right i
        = ⟨q0, (dataFrame cfg).y1, effExtent d0, (dataFrame cfg).h⟩ := by
      rw [frameAt, show edgeFrames cfg .right
        = stackInc (fun pos e => ⟨pos, (dataFrame cfg).y1, e, (dataFrame cfg).h⟩)
            ((dataFrame cfg).x2 + (edgeMargins cfg .right).headD 0)
            (visExts cfg .right) (edgeMargins cfg .right).tail from rfl, hq0]
      rfl
    have hfa1 : frameAt cfg .right (i+1)
        = ⟨q1, (dataFrame cfg).y1, effExtent d1, (dataFrame cfg).h⟩ := by
      rw [frameAt, show edgeFrames cfg .right
        = stackInc (fun pos e => ⟨pos, (dataFrame cfg).y1, e, (dataFrame cfg).h⟩)
            ((dataFrame cfg).x2 + (edgeMargins cfg .right).headD 0)
            (visExts cfg .right) (edgeMargins cfg .right).tail from rfl, hq1]
      rfl
    show (frameAt cfg .right (i+1)).x
        - ((frameAt cfg .right i).x + (frameAt cfg .right i).w) = _
    rw [hfa0, hfa1, ← hms]
    exact hgap
  | top =>
    obtain ⟨q0, q1, hq0, hq1, hgap⟩ :=
      stackDec_gap (fun pos e => ⟨(dataFrame cfg).x1, pos, (dataFrame cfg).w, e⟩) i
        (visExts cfg .top) (edgeMargins cfg .top).tail
        ((dataFrame cfg).y1 - (edgeMargins cfg .top).headD 0)
        (effExtent d0) (effExtent d1) d1.visible hp0 hp1
    have hfa0 : frameAt cfg .top i
        = ⟨(dataFrame cfg).x1, q0, (dataFrame cfg).w, effExtent d0⟩ := by
      rw [frameAt, show edgeFrames cfg .top
        = stackDec (fun pos e => ⟨(dataFrame cfg).x1, pos, (dataFrame cfg).w, e⟩)
            ((dataFrame cfg).y1 - (edgeMargins cfg .top).headD 0)
            (visExts cfg .top) (edgeMargins cfg .top).tail from rfl, hq0]
      rfl
    have hfa1 : frameAt cfg .top (i+1)
        = ⟨(dataFrame cfg).x1, q1, (dataFrame cfg).w, effExtent d1⟩ := by
      rw [frameAt, show edgeFrames cfg .top
        = stackDec (fun pos e => ⟨(dataFrame cfg).x1, pos, (dataFrame cfg).w, e⟩)
            ((dataFrame cfg).y1 - (edgeMargins cfg .top).headD 0)
            (visExts cfg .top) (edgeMargins cfg .top).tail from rfl, hq1]
      rfl
    show (frameAt cfg .top i).y
        - ((frameAt cfg .top (i+1)).y + (frameAt cfg .top (i+1)).h) = _
    rw [hfa0, hfa1, ← hms]
    exact hgap
  | bottom =>
    obtain ⟨q0, q1, hq0, hq1, hgap⟩ :=
      stackInc_gap (fun pos e => ⟨(dataFrame cfg).x1, pos, (dataFrame cfg).w, e⟩) i
        (visExts cfg .bottom) (edgeMargins cfg .bottom).tail
        ((dataFrame cfg).y2 + (edgeMargins cfg .bottom).headD 0)
        (effExtent d0) (effExtent d1) d1.visible hp0 hp1
    have hfa0 : frameAt cfg .bottom i
        = ⟨(dataFrame cfg).x1, q0, (dataFrame cfg).w, effExtent d0⟩ := by
      rw [frameAt, show edgeFrames cfg .bottom
        = stackInc (fun pos e => ⟨(dataFrame cfg).x1, pos, (dataFrame cfg).w, e⟩)
            ((dataFrame cfg).y2 + (edgeMargins cfg .bottom).headD 0)
            (visExts cfg .bottom) (edgeMargins cfg .bottom).tail from rfl, hq0]
      rfl
    have hfa1 : frameAt cfg .bottom (i+1)
        = ⟨(dataFrame cfg).x1, q1, (dataFrame cfg).w, effExtent d1⟩ := by
      rw [frameAt, show edgeFrames cfg .bottom
        = stackInc (fun pos e => ⟨(dataFrame cfg).x1, pos, (dataFrame cfg).w, e⟩)
            ((dataFrame cfg).y2 + (edgeMargins cfg .bottom).headD 0)
            (visExts cfg .bottom) (edgeMargins cfg .bottom).tail from rfl, hq1]
      rfl
    show (frameAt cfg .bottom (i+1)).y
        - ((frameAt cfg .bottom i).y + (frameAt cfg .bottom i).h) = _
    rw [hfa0, hfa1, ← hms]
    exact hgap

/-- Witness for C3: facing margins 8 and 3 produce a gap of 8, not 11. -/
theorem adjacent_margin_gap_is_max_witness : edgeGap cfgGap EdgePos.left 0 = 8 := by
  have h := adjacent_margin_gap_is_max cfgGap EdgePos.left 0 decInner decOuter
    rfl rfl rfl rfl (by decide) (by decide)
  rw [h]
  decide

/-- C8: the layout computation is idempotent — running init_frames twice
with unchanged chart properties, decorations, visibilities, extents and
margins produces the same chart frame, data frame and per-decoration
frames the second time as the first, because the method recomputes every
frame from the chart configuration alone. -/
theorem init_frames_idempotent (cfg : ChartCfg) (s : ChartState) :
    init_frames cfg (init_frames cfg s) = init_frames cfg s := rfl

/-- C4: a chart whose computed data frame is reversed paints only the
background: the draw trace stops after the background event, with no data
frame, in-objects or out-objects events, and the draw function is total
so no exception is raised; the same holds for Venn.draw with a reversed
inner frame. -/
theorem reversed_frame_short_circuit :
    (∀ cfg : ChartCfg, (dataFrame cfg).reversedB = true →
      chart_draw cfg true = [DrawEvent.bgr]) ∧
    (∀ (width height : ℚ) (pad : MarginQ), (venn_frame width height pad).reversedB = true →
      venn_draw width height pad = [VennEvent.bgr]) := by
  constructor
  · intro cfg hrev
    simp [chart_draw, hrev]
  · intro width height pad hrev
    simp [venn_draw, hrev]

/-- Witness for C4: concrete reversed charts paint only the background. -/
theorem reversed_frame_short_circuit_witness :
    chart_draw cfgRev true = [DrawEvent.bgr] ∧
    venn_draw 100 100 ⟨60, 0, 60, 0⟩ = [VennEvent.bgr] :=
  ⟨reversed_frame_short_circuit.1 cfgRev (by
      norm_num [dataFrame, FrameQ.reversedB, extSum, marSum, edgeMargins, marginPairs,
        edgeBucket, edgeBucketI, sortedObjs, sortByZ, buildMargins, cfgRev]),
   reversed_frame_short_circuit.2 100 100 ⟨60, 0, 60, 0⟩ (by
      norm_num [venn_frame, FrameQ.reversedB])⟩

/-- Membership in an insertion is membership in the list or being the
inserted element. -/
theorem mem_insertByDesc {a x : HitObj} :
    ∀ {l : List HitObj}, a ∈ insertByDesc x l ↔ a = x ∨ a ∈ l := by
  intro l
  induction l with
  | nil => simp [insertByDesc]
  | cons y ys ih =>
    simp only [insertByDesc]
    split_ifs with hlt
    · simp only [List.mem_cons, ih]
      tauto
    · simp only [List.mem_cons]

/-- The descending sort preserves membership. -/
theorem mem_sortDesc {a : HitObj} : ∀ {l : List HitObj}, a ∈ sortDesc l ↔ a ∈ l := by
  intro l
  induction l with
  | nil => simp [sortDesc]
  | cons y ys ih => simp only [sortDesc, mem_insertByDesc, List.mem_cons, ih]

/-- Insertion preserves the descending z_index ordering. -/
theorem pairwise_insertByDesc (x : HitObj) :
    ∀ {l : List HitObj}, List.Pairwise (fun a b => b.zIndex ≤ a.zIndex) l →
      List.Pairwise (fun a b => b.zIndex ≤ a.zIndex) (insertByDesc x l) := by
  intro l h
  induction l with
  | nil => simp [insertByDesc]
  | cons y ys ih =>
    rw [List.pairwise_cons] at h
    obtain ⟨hy, hys⟩ := h
    simp only [insertByDesc]
    split_ifs with hlt
    · rw [List.pairwise_cons]
      refine ⟨fun z hz => ?_, ih hys⟩
      rw [mem_insertByDesc] at hz
      rcases hz with rfl | hz
      · exact le_of_lt hlt
      · exact hy z hz
    · rw [List.pairwise_cons]
      refine ⟨fun z hz => ?_, List.pairwise_cons.mpr ⟨hy, hys⟩⟩
      rcases List.mem_cons.mp hz with rfl | hz
      · exact not_lt.mp hlt
      · exact le_trans (hy z hz) (not_lt.mp hlt)

/-- The descending sort is sorted: every later element has a z_index at
most that of an earlier one. -/
theorem pairwise_sortDesc :
    ∀ l : List HitObj, List.Pairwise (fun a b => b.zIndex ≤ a.zIndex) (sortDesc l) := by
  intro l
  induction l with
  | nil => simp [sortDesc]
  | cons x xs ih => exact pairwise_insertByDesc x ih

/-- Insertion never yields the empty list. -/
theorem insertByDesc_ne_nil (x : HitObj) (l : List HitObj) : insertByDesc x l ≠ [] := by
  cases l with
  | nil => simp [insertByDesc]
  | cons y ys =>
    simp only [insertByDesc]
    split_ifs <;> simp

/-- The descending sort of a list is empty only for the empty list. -/
theorem sortDesc_eq_nil {l : List HitObj} : sortDesc l = [] ↔ l = [] := by
  cases l with
  | nil => simp [sortDesc]
  | cons x xs =>
    simp only [sortDesc]
    constructor
    · intro hh
      exact absurd hh (insertByDesc_ne_nil x (sortDesc xs))
    · intro hh
      simp at hh

/-- C10: get_obj_below returns the DATA_FRAME constant whenever the point
lies inside the data frame, even if a decoration's frame also contains
the point; otherwise it returns a registered object whose frame contains
the point and whose z_index is maximal among the containing objects, or
None when no frame contains the point.  The statement holds for every
containment predicate, matching the external pero Frame.contains. -/
theorem get_obj_below_spec (cnt : FrameQ → ℚ → ℚ → Bool) (dataF : FrameQ)
    (objs : List HitObj) (x y : ℚ) :
    (cnt dataF x y = true → get_obj_below cnt dataF objs x y = HitResult.dataFrame) ∧
    (cnt dataF x y = false → (∀ o ∈ objs, cnt o.frame x y = false) →
      get_obj_below cnt dataF objs x y = HitResult.nothing) ∧
    (cnt dataF x y = false →
      ∀ o : HitObj, get_obj_below cnt dataF objs x y = HitResult.obj o →
        o ∈ objs ∧ cnt o.frame x y = true ∧
        ∀ o2 ∈ objs, cnt o2.frame x y = true → o2.zIndex ≤ o.zIndex) ∧
    (cnt dataF x y = false → ∀ o ∈ objs, cnt o.frame x y = true →
      ∃ o3 : HitObj, get_obj_below cnt dataF objs x y = HitResult.obj o3) := by
  refine ⟨fun h => ?_, fun h hnone => ?_, fun h o hres => ?_, fun h o hmem hcnt => ?_⟩
  · simp [get_obj_below, h]
  · have hfil : objs.filter (fun o => cnt o.frame x y) = [] := by
      rw [List.filter_eq_nil_iff]
      intro a ha
      simp [hnone a ha]
    simp [get_obj_below, h, hfil, sortDesc]
  · rw [get_obj_below, if_neg (by simp [h])] at hres
    cases hsor : sortDesc (objs.filter (fun o => cnt o.frame x y)) with
    | nil =>
      rw [hsor] at hres
      exact absurd hres (by simp)
    | cons o4 rest =>
      rw [hsor] at hres
      have ho4 : HitResult.obj o4 = HitResult.obj o := hres
      have hoo : o4 = o := by injection ho4
      subst hoo
      have hmem4 : o4 ∈ objs.filter (fun o => cnt o.frame x y) := by
        rw [← mem_sortDesc, hsor]
        exact List.mem_cons_self o4 rest
      rw [List.mem_filter] at hmem4
      refine ⟨hmem4.1, hmem4.2, fun o2 ho2 hcnt2 => ?_⟩
      have hin : o2 ∈ sortDesc (objs.filter (fun o => cnt o.frame x y)) :=
        mem_sortDesc.mpr (List.mem_filter.mpr ⟨ho2, hcnt2⟩)
      rw [hsor] at hin
      rcases List.mem_cons.mp hin with rfl | hin
      · exact le_refl _
      · have hp := pairwise_sortDesc (objs.filter (fun o => cnt o.frame x y))
        rw [hsor, List.pairwise_cons] at hp
        exact hp.1 o2 hin
  · have hne : objs.filter (fun o => cnt o.frame x y) ≠ [] := by
      intro hf
      have hmf : o ∈ objs.filter (fun o => cnt o.frame x y) :=
        List.mem_filter.mpr ⟨hmem, hcnt⟩
      rw [hf] at hmf
      simp at hmf
    rw [get_obj_below, if_neg (by simp [h])]
    cases hsor : sortDesc (objs.filter (fun o => cnt o.frame x y)) with
    | nil => exact absurd (sortDesc_eq_nil.mp hsor) hne
    | cons o4 rest =>
      exact ⟨o4, rfl⟩

/-- Witness for C10: the point (6, 6) lies inside both the data frame
(0, 0)-(10, 10) and the decoration's frame (5, 5)-(15, 15), and the
DATA_FRAME constant is returned. -/
theorem get_obj_below_spec_witness :
    get_obj_below frame_contains ⟨0, 0, 10, 10⟩ [hitDec] 6 6 = HitResult.dataFrame ∧
    frame_contains hitDec.frame 6 6 = true :=
  ⟨(get_obj_below_spec frame_contains ⟨0, 0, 10, 10⟩ [hitDec] 6 6).1
      (by norm_num [frame_contains, FrameQ.x1, FrameQ.x2, FrameQ.y1, FrameQ.y2]),
   by norm_num [frame_contains, FrameQ.x1, FrameQ.x2, FrameQ.y1, FrameQ.y2, hitDec]⟩

/-- Witness for C9: the amended flag behavior at concrete inputs — an
empty link list completes and clears the flag, a re-entrant call returns
with the flag untouched, and a raising link leaves the flag set. -/
theorem force_flag_behavior_witness :
    force ([] : List SyncLink) false 0 = (some (), false) ∧
    force [⟨0, false⟩] true 0 = (some (), true) ∧
    force [⟨7, true⟩, ⟨0, true⟩] false 0 = (none, true) :=
  ⟨force_flag_behavior.1 [] 0 rfl,
   force_flag_behavior.2.1 [⟨0, false⟩] 0,
   force_flag_behavior.2.2 [⟨7, true⟩, ⟨0, true⟩] 0 rfl⟩

end Perrot
